import Mathlib

/-!
Verification development for the ta-numba streaming/bulk indicator library.

Modelling conventions:
* IEEE floating-point values are modelled by exact rationals `ℚ`; the NaN
  "not ready" sentinel is modelled by `none` in `Option ℚ`.
* Bulk numpy arrays are modelled as `List ℚ` inputs with index functions
  `ℕ → Option ℚ` for the produced arrays (`none` = NaN warm-up cell).
* Streaming indicator classes are modelled as state structures with a
  `step` function translating the body of their `update` method; the value
  returned by `update` is the `currentValue` field of the post-step state.
-/

namespace TaNumba

/-! ### Bulk daily return (src/ta_numba/others.py, daily_return_numba)

`dr = full_like(close, nan); dr[1:] = (close[1:] - close[:-1]) / close[:-1] * 100`.
Cell `i ≥ 1` holds `(close[i] - close[i-1]) / close[i-1] * 100`; cell 0 stays NaN.
(Rational division is total; the float code divides by `close[i-1]` unguarded,
so the two agree on nonzero previous closes, which is how the theorems use it.) -/
def dailyReturnAt (close : List ℚ) (i : ℕ) : Option ℚ :=
  if i = 0 ∨ close.length ≤ i then none
  else some ((close.getD i 0 - close.getD (i - 1) 0) / close.getD (i - 1) 0 * 100)

/-! ### Streaming DailyReturnStreaming (src/ta_numba/streaming/others.py) -/

/-- State of `DailyReturnStreaming`.  The fields `updateCount`, `currentValue`,
`isReady` come from the `StreamingIndicator` base class (modelled from the
spec: base class source is not in src/; the spec fixes their initial values:
count 0, NaN current value, not ready). `prevClose` is the subclass field,
initialised to NaN. -/
structure DRState where
  updateCount : ℕ
  currentValue : Option ℚ
  isReady : Bool
  prevClose : Option ℚ
deriving DecidableEq

def DRState.init : DRState := ⟨0, none, false, none⟩

/-- Body of `DailyReturnStreaming.update`.  First call stores the close and
returns the (NaN) current value; later calls compute
`(close - prev) / prev * 100` when `prev != 0` and always store `close` as the
new previous close.  (A NaN `prevClose` at count ≥ 1 — unreachable in runs —
follows float semantics: `NaN != 0` holds and the computed value is NaN.) -/
def drStep (s : DRState) (close : ℚ) : DRState :=
  if s.updateCount + 1 = 1 then
    { s with updateCount := s.updateCount + 1, prevClose := some close }
  else
    -- the unconditional trailing `self.prev_close = close` is inlined per branch
    match s.prevClose with
    | some p =>
      if p ≠ 0 then
        { s with updateCount := s.updateCount + 1,
                 currentValue := some ((close - p) / p * 100), isReady := true,
                 prevClose := some close }
      else
        { s with updateCount := s.updateCount + 1, prevClose := some close }
    | none =>
      { s with updateCount := s.updateCount + 1, currentValue := none,
               isReady := true, prevClose := some close }

/-- The sequence of values returned by successive `update` calls. -/
def drOutputs : DRState → List ℚ → List (Option ℚ)
  | _, [] => []
  | s, c :: cs => (drStep s c).currentValue :: drOutputs (drStep s c) cs

/-- State after feeding a list of closes one at a time. -/
def drRun (closes : List ℚ) : DRState := closes.foldl drStep DRState.init

/-- Output key of the `update` mapping of `DailyReturnStreaming`
(src/ta_numba/streaming/_rust_streaming.py: `return {"dr": result}`). -/
def drKey : String := "dr"

/-! ### Bounded buffers (`collections.deque(maxlen=w)`) and window machines -/

/-- Push of `deque(maxlen=w)`: append `x`, evicting the oldest element once
the deque holds `w` elements (`maxlen=0` keeps nothing). -/
def pushBounded (w : ℕ) (buf : List ℚ) (x : ℚ) : List ℚ :=
  if w = 0 then []
  else if buf.length + 1 ≤ w then buf ++ [x]
  else buf.drop (buf.length + 1 - w) ++ [x]

/-- Common state shape of the buffer-based streaming indicators: the
`StreamingIndicator` base-class fields (modelled from the spec: base-class
source is not in src/; counter 0, NaN value, not ready at construction)
plus the single bounded buffer the subclass owns. -/
structure BufState where
  updateCount : ℕ
  currentValue : Option ℚ
  isReady : Bool
  buffer : List ℚ
deriving DecidableEq

def BufState.init : BufState := ⟨0, none, false, []⟩

/-- Value of `np.max` over a nonempty buffer (0 for the empty list, unreachable). -/
def listMax : List ℚ → ℚ
  | [] => 0
  | x :: xs => xs.foldl max x

/-- Value of `np.min` over a nonempty buffer (0 for the empty list, unreachable). -/
def listMin : List ℚ → ℚ
  | [] => 0
  | x :: xs => xs.foldl min x

def runningMaxAux (m : ℚ) : List ℚ → List ℚ
  | [] => []
  | x :: xs => max m x :: runningMaxAux (max m x) xs

/-- Running maximum, `np.maximum.accumulate`. -/
def runningMax : List ℚ → List ℚ
  | [] => []
  | x :: xs => x :: runningMaxAux x xs

/-- Drawdown vector `(close_array - running_max) / running_max` (MaxDrawdown / Calmar body). -/
def mddDrawdowns (buf : List ℚ) : List ℚ :=
  List.zipWith (fun c m => (c - m) / m) buf (runningMax buf)

/-- Value `(end - start) / start * 100` when the start price is nonzero, else `0.0`. -/
def rollingReturnValue (buf : List ℚ) : ℚ :=
  if buf.getD 0 0 ≠ 0
    then (buf.getD (buf.length - 1) 0 - buf.getD 0 0) / buf.getD 0 0 * 100
    else 0

/-- Body of `RollingReturnStreaming.update` (window `w`): push the close into
the bounded buffer; once the buffer holds `w` values, return
`(end - start) / start * 100` (0 when the start price is zero) and mark ready. -/
def rollingReturnStep (w : ℕ) (s : BufState) (close : ℚ) : BufState :=
  if w ≤ (pushBounded w s.buffer close).length then
    { updateCount := s.updateCount + 1, buffer := pushBounded w s.buffer close,
      currentValue := some (rollingReturnValue (pushBounded w s.buffer close)),
      isReady := true }
  else
    { s with updateCount := s.updateCount + 1,
             buffer := pushBounded w s.buffer close }

def rollingReturnRun (w : ℕ) (closes : List ℚ) : BufState :=
  closes.foldl (rollingReturnStep w) BufState.init

/-- Body of `MaxDrawdownStreaming.update` (window `w`, default 252): push the
close; as soon as the buffer holds **2** values (not `w`), compute
`min((close - running_max) / running_max) * 100` and mark ready. -/
def maxDrawdownStep (w : ℕ) (s : BufState) (close : ℚ) : BufState :=
  if 2 ≤ (pushBounded w s.buffer close).length then
    { updateCount := s.updateCount + 1, buffer := pushBounded w s.buffer close,
      currentValue := some (listMin (mddDrawdowns (pushBounded w s.buffer close)) * 100),
      isReady := true }
  else
    { s with updateCount := s.updateCount + 1,
             buffer := pushBounded w s.buffer close }

def maxDrawdownRun (w : ℕ) (closes : List ℚ) : BufState :=
  closes.foldl (maxDrawdownStep w) BufState.init

/-- Default window of `MaxDrawdownStreaming.__init__`. -/
def maxDrawdownDefaultWindow : ℕ := 252

/-! ### Log-return streaming indicators (src/ta_numba/streaming/others.py)

`np.log` / `np.exp` are irrational-valued; they enter these machines only
through the guarded branch, so they are taken as parameters `rlog`, `rexp` of
the embedding — every theorem below holds for all choices. -/

/-- Body of `DailyLogReturnStreaming.update`: like `DailyReturnStreaming` but
computes `log(close / prev) * 100` only when `prev > 0 and close > 0`
(a NaN `prev_close` fails the float comparison `prev_close > 0`). -/
def dlrStep (rlog : ℚ → ℚ) (s : DRState) (close : ℚ) : DRState :=
  if s.updateCount + 1 = 1 then
    { s with updateCount := s.updateCount + 1, prevClose := some close }
  else
    match s.prevClose with
    | some p =>
      if 0 < p ∧ 0 < close then
        { s with updateCount := s.updateCount + 1,
                 currentValue := some (rlog (close / p) * 100), isReady := true,
                 prevClose := some close }
      else
        { s with updateCount := s.updateCount + 1, prevClose := some close }
    | none =>
      { s with updateCount := s.updateCount + 1, prevClose := some close }

/-- State of `CompoundLogReturnStreaming`: base-class fields plus the
`cumulative_log_return` accumulator (0.0) and `prev_close` (NaN). -/
structure CLRState where
  updateCount : ℕ
  currentValue : Option ℚ
  isReady : Bool
  cumulativeLogReturn : ℚ
  prevClose : Option ℚ
deriving DecidableEq

def CLRState.init : CLRState := ⟨0, none, false, 0, none⟩

/-- Body of `CompoundLogReturnStreaming.update`: the first call stores the
close, sets the current value to 0.0 and marks ready; later calls add
`log(close / prev)` to the accumulator and output `(exp(acc) - 1) * 100`,
but only when `prev > 0 and close > 0`. -/
def clrStep (rexp rlog : ℚ → ℚ) (s : CLRState) (close : ℚ) : CLRState :=
  if s.updateCount + 1 = 1 then
    { s with updateCount := s.updateCount + 1, currentValue := some 0,
             isReady := true, prevClose := some close }
  else
    match s.prevClose with
    | some p =>
      if 0 < p ∧ 0 < close then
        { s with updateCount := s.updateCount + 1,
                 cumulativeLogReturn := s.cumulativeLogReturn + rlog (close / p),
                 currentValue :=
                   some ((rexp (s.cumulativeLogReturn + rlog (close / p)) - 1) * 100),
                 prevClose := some close }
      else
        { s with updateCount := s.updateCount + 1, prevClose := some close }
    | none =>
      { s with updateCount := s.updateCount + 1, prevClose := some close }

/-- Predicate for a non-positive stored previous close (a NaN previous close also
fails the float guard `prev_close > 0`). -/
def prevInvalid : Option ℚ → Prop
  | some p => p ≤ 0
  | none => True

/-! ### SharpeRatioStreaming, CalmarRatioStreaming, RollingZScoreStreaming -/

/-- Final Sharpe computation of `SharpeRatioStreaming.update` once the buffer
is full (others.py lines 246-252): `(avg_return - risk_free_rate) / volatility`
when the volatility is positive, else the sentinel 0.0.  `avgReturn` and
`volatility` stand for the annualized mean and (nonnegative) standard
deviation of the buffered log returns; the Rust-backed wrapper's inner
computation is not in src/ and is, per the spec's bulk/streaming parity
contract, the same formula. -/
def sharpeFromStats (avgReturn volatility riskFreeRate : ℚ) : ℚ :=
  if 0 < volatility then (avgReturn - riskFreeRate) / volatility else 0

/-- Default `risk_free_rate` of `SharpeRatioStreaming.__init__` in
src/ta_numba/streaming/others.py (0.02). -/
def pySharpeDefaultRiskFreeRate : ℚ := 2 / 100

/-- Default `risk_free_rate` of the Rust-backed wrapper
`SharpeRatioStreaming.__init__` in
src/ta_numba/streaming/_rust_streaming.py (0.0). -/
def rustSharpeDefaultRiskFreeRate : ℚ := 0

/-- Mean of a buffer (`np.mean`). -/
def popMean (l : List ℚ) : ℚ := l.sum / l.length

/-- Population variance of a buffer (`np.std(·)` squared, ddof = 0). -/
def popVar (l : List ℚ) : ℚ :=
  (l.map (fun x => (x - popMean l) ^ 2)).sum / l.length

/-- Annualized return `total_return * (252 / len(close_array))` of `CalmarRatioStreaming.update`. -/
def calmarAnnualReturn (buf : List ℚ) : ℚ :=
  (buf.getD (buf.length - 1) 0 / buf.getD 0 0 - 1) * (252 / (buf.length : ℚ))

/-- Max drawdown `abs(np.min(drawdowns))` of `CalmarRatioStreaming.update`. -/
def calmarMaxDrawdown (buf : List ℚ) : ℚ := |listMin (mddDrawdowns buf)|

/-- Body of `CalmarRatioStreaming.update` (window `w`, default 252): once the
buffer holds `w` closes, return `annual_return / max_drawdown` when the max
drawdown is positive, else the sentinel 0.0. -/
def calmarStep (w : ℕ) (s : BufState) (close : ℚ) : BufState :=
  if w ≤ (pushBounded w s.buffer close).length then
    { updateCount := s.updateCount + 1, buffer := pushBounded w s.buffer close,
      currentValue := some
        (if 0 < calmarMaxDrawdown (pushBounded w s.buffer close)
          then calmarAnnualReturn (pushBounded w s.buffer close) /
            calmarMaxDrawdown (pushBounded w s.buffer close)
          else 0),
      isReady := true }
  else
    { s with updateCount := s.updateCount + 1,
             buffer := pushBounded w s.buffer close }

/-- Body of `RollingZScoreStreaming.update` (window `w`): once the buffer
holds `w` values, return `(value - mean) / std` when `std != 0`, else the
sentinel 0.0.  `np.std` is `sqrt` of the population variance; `sqrtQ` is the
square-root parameter of the embedding. -/
def zscoreStep (sqrtQ : ℚ → ℚ) (w : ℕ) (s : BufState) (v : ℚ) : BufState :=
  if w ≤ (pushBounded w s.buffer v).length then
    { updateCount := s.updateCount + 1, buffer := pushBounded w s.buffer v,
      currentValue := some
        (if sqrtQ (popVar (pushBounded w s.buffer v)) ≠ 0
          then (v - popMean (pushBounded w s.buffer v)) /
            sqrtQ (popVar (pushBounded w s.buffer v))
          else 0),
      isReady := true }
  else
    { s with updateCount := s.updateCount + 1,
             buffer := pushBounded w s.buffer v }

/-! ### Update counter and the Rust-backed SMA wrapper -/

/-- Operations a caller can perform on a streaming indicator that mutate it:
`update(x)` and `reset()` (property reads are pure and excluded). -/
inductive StreamOp where
  | update (x : ℚ)
  | reset
deriving DecidableEq

/-- Modelled from the spec: `reset()` of `DailyReturnStreaming` comes from the
base class, which is not in src/; the spec says it returns the instance to its
pre-first-update state. -/
def drReset (_ : DRState) : DRState := DRState.init

def drApply (s : DRState) : StreamOp → DRState
  | .update x => drStep s x
  | .reset => drReset s

def drRunOps (ops : List StreamOp) : DRState := ops.foldl drApply DRState.init

/-- State of the Rust-backed `SMAStreaming` wrapper
(src/ta_numba/streaming/_rust_streaming.py): the wrapper's own
`_update_count`, `_current_value`, `_is_ready`, plus the inner Rust
`SMAStreaming` state, which is its window buffer. -/
structure SMAWState where
  updateCount : ℕ
  currentValue : Option ℚ
  isReady : Bool
  innerBuffer : List ℚ
deriving DecidableEq

def SMAWState.init : SMAWState := ⟨0, none, false, []⟩

/-- Modelled from the spec: the inner Rust `SMAStreaming.update` is not in
src/; per the spec, an SMA with window `w` keeps the last `w` values and
returns their simple average once `w` values have been seen, NaN during
warm-up. -/
def smaInnerUpdate (w : ℕ) (buf : List ℚ) (v : ℚ) : List ℚ × Option ℚ :=
  (pushBounded w buf v,
    if w ≤ (pushBounded w buf v).length
      then some ((pushBounded w buf v).sum / (w : ℚ))
      else none)

/-- Body of the wrapper's `update`: increment `_update_count`, call the inner
update, store the result, and set `_is_ready := not math.isnan(result)`. -/
def smaWStep (w : ℕ) (s : SMAWState) (v : ℚ) : SMAWState :=
  { updateCount := s.updateCount + 1,
    innerBuffer := (smaInnerUpdate w s.innerBuffer v).1,
    currentValue := (smaInnerUpdate w s.innerBuffer v).2,
    isReady := ((smaInnerUpdate w s.innerBuffer v).2).isSome }

/-- Body of the wrapper's `reset`: reset the inner state and restore NaN /
not-ready / zero count. -/
def smaWReset (_ : SMAWState) : SMAWState := SMAWState.init

def smaWApply (w : ℕ) (s : SMAWState) : StreamOp → SMAWState
  | .update x => smaWStep w s x
  | .reset => smaWReset s

def smaWRunOps (w : ℕ) (ops : List StreamOp) : SMAWState :=
  ops.foldl (smaWApply w) SMAWState.init

/-- Output key of the wrapper's `update` mapping: `return {"sma": result}`. -/
def smaKey : String := "sma"

/-- The number of `update` operations since the most recent `reset` (or since
the start when no reset occurred). -/
def countSinceReset (ops : List StreamOp) : ℕ :=
  ops.foldl (fun acc op => match op with
    | .update _ => acc + 1
    | .reset => 0) 0

/-! ### Rolling percentile (streaming class and bulk function) -/

/-- Body of `RollingPercentileStreaming.update` (window `w`, default 120):
once the buffer holds `w` values, return
`count(buffer <= value) / window` and mark ready. -/
def rollingPercentileStep (w : ℕ) (s : BufState) (v : ℚ) : BufState :=
  if w ≤ (pushBounded w s.buffer v).length then
    { updateCount := s.updateCount + 1, buffer := pushBounded w s.buffer v,
      currentValue := some
        (((pushBounded w s.buffer v).countP (fun x => decide (x ≤ v)) : ℚ) / (w : ℚ)),
      isReady := true }
  else
    { s with updateCount := s.updateCount + 1,
             buffer := pushBounded w s.buffer v }

def rollingPercentileRun (w : ℕ) (xs : List ℚ) : BufState :=
  xs.foldl (rollingPercentileStep w) BufState.init

/-- Bulk `rolling_percentile_numba` (src/ta_numba/others.py): cell `i ≥ w-1`
holds `count(data[i-w+1 .. i] <= data[i]) / window`; earlier cells stay NaN. -/
def rollingPercentileAt (data : List ℚ) (w i : ℕ) : Option ℚ :=
  if w - 1 ≤ i ∧ i < data.length then
    some (((List.range w).countP
        (fun j => decide (data.getD (i + 1 - w + j) 0 ≤ data.getD i 0)) : ℚ) / (w : ℚ))
  else none

/-! ### Volatility channels (src/ta_numba/volatility.py) -/

/-- Element `j` of the window `data[i-n+1 : i+1]` (used for `i ≥ n - 1`). -/
def winGetD (data : List ℚ) (n i j : ℕ) : ℚ := data.getD (i + 1 - n + j) 0

/-- Window mean `np.mean(close[i-n+1 : i+1])` of `bollinger_bands_numba`. -/
def bbSma (close : List ℚ) (n i : ℕ) : ℚ :=
  ((List.range n).map (winGetD close n i)).sum / (n : ℚ)

/-- Squared `np.std(close[i-n+1 : i+1])` (population variance). -/
def bbVar (close : List ℚ) (n i : ℕ) : ℚ :=
  ((List.range n).map (fun j => (winGetD close n i j - bbSma close n i) ^ 2)).sum
    / (n : ℚ)

def bollingerUpper (sqrtQ : ℚ → ℚ) (close : List ℚ) (n : ℕ) (k : ℚ) (i : ℕ) :
    Option ℚ :=
  if n - 1 ≤ i ∧ i < close.length then
    some (bbSma close n i + k * sqrtQ (bbVar close n i))
  else none

def bollingerMiddle (close : List ℚ) (n i : ℕ) : Option ℚ :=
  if n - 1 ≤ i ∧ i < close.length then some (bbSma close n i) else none

def bollingerLower (sqrtQ : ℚ → ℚ) (close : List ℚ) (n : ℕ) (k : ℚ) (i : ℕ) :
    Option ℚ :=
  if n - 1 ≤ i ∧ i < close.length then
    some (bbSma close n i - k * sqrtQ (bbVar close n i))
  else none

/-- Upper band of `donchian_channel_numba`: `np.max` of the high window. -/
def donchianUpper (high : List ℚ) (n i : ℕ) : Option ℚ :=
  if n - 1 ≤ i ∧ i < high.length then
    some (listMax ((List.range n).map (winGetD high n i)))
  else none

/-- Lower band: `np.min` of the low window (the loop is bounded by `len(high)`). -/
def donchianLower (high low : List ℚ) (n i : ℕ) : Option ℚ :=
  if n - 1 ≤ i ∧ i < high.length then
    some (listMin ((List.range n).map (winGetD low n i)))
  else none

/-- Midline `(upper_val + lower_val) / 2`. -/
def donchianMiddle (high low : List ℚ) (n i : ℕ) : Option ℚ :=
  if n - 1 ≤ i ∧ i < high.length then
    some ((listMax ((List.range n).map (winGetD high n i)) +
      listMin ((List.range n).map (winGetD low n i))) / 2)
  else none

/-- EMA smoothing constant `2 / (n + 1)`. -/
def emaAlpha (n : ℕ) : ℚ := 2 / ((n : ℚ) + 1)

/-- Modelled from the spec: `_ema_numba_unadjusted` (helpers.py is not in
src/) — the standard unadjusted EMA recurrence seeded with the first value. -/
def emaVal (close : List ℚ) (n : ℕ) : ℕ → ℚ
  | 0 => close.getD 0 0
  | i + 1 => emaAlpha n * close.getD (i + 1) 0 + (1 - emaAlpha n) * emaVal close n i

def emaUnadjAt (close : List ℚ) (n i : ℕ) : Option ℚ :=
  if i < close.length then some (emaVal close n i) else none

/-- Modelled from the spec: `_true_range_numba` (helpers.py is not in src/) —
the standard true range `max(high-low, |high-prev_close|, |low-prev_close|)`,
`high-low` at the first bar. -/
def trF (high low close : List ℚ) : ℕ → ℚ
  | 0 => high.getD 0 0 - low.getD 0 0
  | i + 1 =>
    max (high.getD (i + 1) 0 - low.getD (i + 1) 0)
      (max |high.getD (i + 1) 0 - close.getD i 0|
        |low.getD (i + 1) 0 - close.getD i 0|)

/-- Modelled from the spec: `_wilders_ema_adaptive` (helpers.py is not in
src/) — Wilder's smoothing `s' = s + (x - s)/n` seeded by the simple average
of the first `n` samples; `wilderVal x n j` is the smoothed value at array
index `n - 1 + j`. -/
def wilderVal (x : ℕ → ℚ) (n : ℕ) : ℕ → ℚ
  | 0 => ((List.range n).map x).sum / (n : ℚ)
  | j + 1 => wilderVal x n j + (x (n - 1 + (j + 1)) - wilderVal x n j) / (n : ℚ)

/-- ATR `average_true_range_numba` as an index function: NaN before index
`n - 1`, Wilder-smoothed true range afterwards. -/
def atrAt (high low close : List ℚ) (n i : ℕ) : Option ℚ :=
  if n - 1 ≤ i ∧ i < high.length then
    some (wilderVal (trF high low close) n (i - (n - 1)))
  else none

/-- Typical price `(high + low + close) / 3` (original Keltner middle). -/
def tpF (high low close : List ℚ) (j : ℕ) : ℚ :=
  (high.getD j 0 + low.getD j 0 + close.getD j 0) / 3

/-- High-band input `(4*high - 2*low + close) / 3` (original Keltner). -/
def highTpF (high low close : List ℚ) (j : ℕ) : ℚ :=
  (4 * high.getD j 0 - 2 * low.getD j 0 + close.getD j 0) / 3

/-- Low-band input `(-2*high + 4*low + close) / 3` (original Keltner). -/
def lowTpF (high low close : List ℚ) (j : ℕ) : ℚ :=
  (-2 * high.getD j 0 + 4 * low.getD j 0 + close.getD j 0) / 3

/-- Modelled from the spec: `_sma_numba` with `min_periods` (helpers.py is not
in src/) — rolling mean over the last `min n (i+1)` values, defined once at
least `max min_periods 1` values are in the window. -/
def smaMpAt (f : ℕ → ℚ) (len n minp i : ℕ) : Option ℚ :=
  if i < len ∧ max minp 1 ≤ min n (i + 1) then
    some (((List.range (min n (i + 1))).map
        (fun j => f (i + 1 - min n (i + 1) + j))).sum / ((min n (i + 1) : ℕ) : ℚ))
  else none

/-- Upper band of `keltner_channel_numba`: original (SMA) or modern (EMA+ATR). -/
def keltnerUpper (high low close : List ℚ) (nEma nAtr : ℕ) (k : ℚ)
    (orig : Bool) (i : ℕ) : Option ℚ :=
  if orig then smaMpAt (highTpF high low close) close.length nEma 0 i
  else
    match emaUnadjAt close nEma i, atrAt high low close nAtr i with
    | some m, some a => some (m + k * a)
    | _, _ => none

def keltnerMiddle (high low close : List ℚ) (nEma : ℕ) (orig : Bool) (i : ℕ) :
    Option ℚ :=
  if orig then smaMpAt (tpF high low close) close.length nEma nEma i
  else emaUnadjAt close nEma i

def keltnerLower (high low close : List ℚ) (nEma nAtr : ℕ) (k : ℚ)
    (orig : Bool) (i : ℕ) : Option ℚ :=
  if orig then smaMpAt (lowTpF high low close) close.length nEma 0 i
  else
    match emaUnadjAt close nEma i, atrAt high low close nAtr i with
    | some m, some a => some (m - k * a)
    | _, _ => none

/-! ## Lemmas and theorems -/

/-! #### Helper lemmas for the DailyReturn machine -/

lemma drStep_updateCount (s : DRState) (c : ℚ) :
    (drStep s c).updateCount = s.updateCount + 1 := by
  rcases s with ⟨n, cur, r, _ | p⟩ <;>
    simp only [drStep] <;> split <;> (try split) <;> rfl

lemma drStep_prevClose (s : DRState) (c : ℚ) :
    (drStep s c).prevClose = some c := by
  rcases s with ⟨n, cur, r, _ | p⟩ <;>
    simp only [drStep] <;> split <;> (try split) <;> rfl

lemma drStep_value_of_prev (s : DRState) (c p : ℚ) (hn : s.updateCount ≠ 0)
    (hp : s.prevClose = some p) (hpnz : p ≠ 0) :
    (drStep s c).currentValue = some ((c - p) / p * 100) := by
  rcases s with ⟨n, cur, r, pc⟩
  cases hp
  have hn' : n ≠ 0 := hn
  simp only [drStep]
  rw [if_neg (by omega)]
  simp [hpnz]

lemma drFoldl_updateCount (cs : List ℚ) (s : DRState) :
    (cs.foldl drStep s).updateCount = s.updateCount + cs.length := by
  induction cs generalizing s with
  | nil => simp
  | cons c cs ih =>
    simp only [List.foldl_cons, List.length_cons, ih, drStep_updateCount]
    omega

lemma drFoldl_prevClose (cs : List ℚ) (s : DRState) (h : cs ≠ []) :
    (cs.foldl drStep s).prevClose = some (cs.getD (cs.length - 1) 0) := by
  induction cs generalizing s with
  | nil => exact absurd rfl h
  | cons c cs ih =>
    rcases cs with _ | ⟨c', cs'⟩
    · simpa using drStep_prevClose s c
    · simpa using ih (drStep s c) (by simp)

lemma drOutputs_getD (cs : List ℚ) (s : DRState) (i : ℕ) (hi : i < cs.length) :
    (drOutputs s cs).getD i none =
      (drStep ((cs.take i).foldl drStep s) (cs.getD i 0)).currentValue := by
  induction cs generalizing s i with
  | nil => simp at hi
  | cons c cs ih =>
    cases i with
    | zero => simp [drOutputs]
    | succ i =>
      simp only [List.length_cons, Nat.succ_lt_succ_iff] at hi
      simpa [drOutputs] using ih (drStep s c) i hi

lemma getD_take (l : List ℚ) (n i : ℕ) (h : i < n) (d : ℚ) :
    (l.take n).getD i d = l.getD i d := by
  induction l generalizing n i with
  | nil => simp
  | cons x xs ih =>
    cases n with
    | zero => omega
    | succ n =>
      cases i with
      | zero => simp
      | succ i => simpa using ih n i (by omega)

lemma getD_mem (l : List ℚ) (i : ℕ) (h : i < l.length) (d : ℚ) :
    l.getD i d ∈ l := by
  induction l generalizing i with
  | nil => simp at h
  | cons x xs ih =>
    cases i with
    | zero => simp
    | succ i =>
      simp only [List.length_cons, Nat.succ_lt_succ_iff] at h
      exact List.mem_cons_of_mem x (ih i h)

/-- C1: Feeding a finite sequence of nonzero closes one at a time to
`DailyReturnStreaming`, the value returned by the `k`-th `update` call
(`k ≥ 2`) equals `daily_return_numba` applied to the prefix of the first `k`
closes, evaluated at index `k - 1`; the first `update` call returns the NaN
not-ready sentinel. -/
theorem daily_return_streaming_refines_bulk
    (closes : List ℚ) (hnz : ∀ c ∈ closes, c ≠ 0)
    (k : ℕ) (hk2 : 2 ≤ k) (hk : k ≤ closes.length) :
    (drOutputs DRState.init closes).getD (k - 1) none =
      dailyReturnAt (closes.take k) (k - 1) ∧
    (drOutputs DRState.init closes).getD 0 none = none := by
  obtain ⟨j, rfl⟩ : ∃ j, k = j + 2 := ⟨k - 2, by omega⟩
  constructor
  · have hj1 : j + 1 < closes.length := by omega
    have hi : (j + 2 - 1) = j + 1 := by omega
    rw [hi, drOutputs_getD closes DRState.init (j + 1) (by omega)]
    have hlen : (closes.take (j + 1)).length = j + 1 := by
      simp [List.length_take]; omega
    have hcount : ((closes.take (j + 1)).foldl drStep DRState.init).updateCount
        = j + 1 := by
      rw [drFoldl_updateCount, hlen]
      simp [DRState.init]
    have hprev : ((closes.take (j + 1)).foldl drStep DRState.init).prevClose
        = some (closes.getD j 0) := by
      rw [drFoldl_prevClose _ _ (by intro h; rw [h] at hlen; simp at hlen)]
      rw [hlen]
      simp only [Nat.add_sub_cancel]
      rw [getD_take _ _ _ (by omega)]
    have hpnz : closes.getD j 0 ≠ 0 := hnz _ (getD_mem closes j (by omega) 0)
    rw [drStep_value_of_prev _ _ _ (by rw [hcount]; omega) hprev hpnz]
    unfold dailyReturnAt
    have hlent : (closes.take (j + 2)).length = j + 2 := by
      simp [List.length_take]; omega
    rw [if_neg (by rw [hlent]; omega)]
    rw [getD_take _ _ _ (by omega)]
    simp only [Nat.add_sub_cancel]
    rw [getD_take _ _ _ (by omega)]
  · rw [drOutputs_getD closes DRState.init 0 (by omega)]
    simp only [List.take_zero, List.foldl_nil]
    simp [drStep, DRState.init]

/-- Witness for C1 at the concrete input `closes = [100, 105]`, `k = 2`. -/
theorem daily_return_streaming_refines_bulk_witness :
    (∀ c ∈ [(100 : ℚ), 105], c ≠ 0) ∧
    (drOutputs DRState.init [100, 105]).getD (2 - 1) none =
      dailyReturnAt ([(100 : ℚ), 105].take 2) (2 - 1) ∧
    (drOutputs DRState.init [100, 105]).getD 0 none = none :=
  ⟨by decide,
    daily_return_streaming_refines_bulk [100, 105] (by decide) 2 (by omega) (by decide)⟩

/-- C3: `DailyReturnStreaming` fed `100.0` then `105.0` is not ready after
the first update, and the second update returns the value `5.0` under the
output key `"dr"` with `is_ready` true. -/
theorem daily_return_concrete_scenario :
    drOutputs DRState.init [100, 105] = [none, some 5] ∧
    (drRun [100]).isReady = false ∧
    (drRun [100, 105]).isReady = true ∧
    drKey = "dr" := by
  refine ⟨?_, ?_, ?_, rfl⟩ <;> norm_num [drOutputs, drRun, drStep, DRState.init]

lemma pushBounded_length (w : ℕ) (buf : List ℚ) (x : ℚ) :
    (pushBounded w buf x).length = min (buf.length + 1) w := by
  unfold pushBounded
  split
  · simp; omega
  · split <;> simp <;> omega

lemma rollingReturnStep_buffer (w : ℕ) (s : BufState) (c : ℚ) :
    (rollingReturnStep w s c).buffer = pushBounded w s.buffer c := by
  unfold rollingReturnStep
  split <;> rfl

lemma maxDrawdownStep_buffer (w : ℕ) (s : BufState) (c : ℚ) :
    (maxDrawdownStep w s c).buffer = pushBounded w s.buffer c := by
  unfold maxDrawdownStep
  split <;> rfl

lemma rollingReturnStep_isReady (w : ℕ) (s : BufState) (c : ℚ) :
    (rollingReturnStep w s c).isReady =
      if w ≤ (pushBounded w s.buffer c).length then true else s.isReady := by
  unfold rollingReturnStep
  split <;> rename_i h <;> simp [h]

lemma maxDrawdownStep_isReady (w : ℕ) (s : BufState) (c : ℚ) :
    (maxDrawdownStep w s c).isReady =
      if 2 ≤ (pushBounded w s.buffer c).length then true else s.isReady := by
  unfold maxDrawdownStep
  split <;> rename_i h <;> simp [h]

lemma rollingReturnRun_append (w : ℕ) (xs : List ℚ) (x : ℚ) :
    rollingReturnRun w (xs ++ [x]) = rollingReturnStep w (rollingReturnRun w xs) x := by
  unfold rollingReturnRun
  rw [List.foldl_append]
  rfl

lemma maxDrawdownRun_append (w : ℕ) (xs : List ℚ) (x : ℚ) :
    maxDrawdownRun w (xs ++ [x]) = maxDrawdownStep w (maxDrawdownRun w xs) x := by
  unfold maxDrawdownRun
  rw [List.foldl_append]
  rfl

lemma rollingReturnRun_buffer_length (w : ℕ) (closes : List ℚ) :
    (rollingReturnRun w closes).buffer.length = min closes.length w := by
  induction closes using List.reverseRecOn with
  | nil => simp [rollingReturnRun, BufState.init]
  | append_singleton xs x ih =>
    rw [rollingReturnRun_append, rollingReturnStep_buffer, pushBounded_length, ih]
    simp
    omega

lemma maxDrawdownRun_buffer_length (w : ℕ) (closes : List ℚ) :
    (maxDrawdownRun w closes).buffer.length = min closes.length w := by
  induction closes using List.reverseRecOn with
  | nil => simp [maxDrawdownRun, BufState.init]
  | append_singleton xs x ih =>
    rw [maxDrawdownRun_append, maxDrawdownStep_buffer, pushBounded_length, ih]
    simp
    omega

lemma rollingReturnRun_isReady (w : ℕ) (hw : 1 ≤ w) (closes : List ℚ) :
    (rollingReturnRun w closes).isReady = decide (w ≤ closes.length) := by
  induction closes using List.reverseRecOn with
  | nil =>
    simp [rollingReturnRun, BufState.init]
    omega
  | append_singleton xs x ih =>
    rw [rollingReturnRun_append, rollingReturnStep_isReady, pushBounded_length,
      rollingReturnRun_buffer_length, ih]
    simp only [List.length_append, List.length_cons, List.length_nil]
    split
    · rename_i h
      have : w ≤ xs.length + 1 := by omega
      simp [this]
    · rename_i h
      have h1 : ¬ w ≤ xs.length := by omega
      have h2 : ¬ w ≤ xs.length + 1 := by omega
      simp [h1, h2]

lemma maxDrawdownRun_isReady (w : ℕ) (closes : List ℚ) :
    (maxDrawdownRun w closes).isReady = decide (2 ≤ min closes.length w) := by
  induction closes using List.reverseRecOn with
  | nil => simp [maxDrawdownRun, BufState.init]
  | append_singleton xs x ih =>
    rw [maxDrawdownRun_append, maxDrawdownStep_isReady, pushBounded_length,
      maxDrawdownRun_buffer_length, ih]
    simp only [List.length_append, List.length_cons, List.length_nil]
    split
    · rename_i h
      have : 2 ≤ min (xs.length + 1) w := by omega
      simp [this]
    · rename_i h
      have h1 : ¬ 2 ≤ min xs.length w := by omega
      have h2 : ¬ 2 ≤ min (xs.length + 1) w := by omega
      simp [h1, h2]

/-- C2 counterexample: the claim fails on `MaxDrawdownStreaming` with its
default window 252: after only 2 update calls (2 < 252, so within the first
`w - 1` calls) `is_ready` is already true. -/
theorem max_drawdown_ready_before_window_counterexample :
    (maxDrawdownRun maxDrawdownDefaultWindow [1, 2]).isReady = true ∧
    (2 : ℕ) < maxDrawdownDefaultWindow := by
  constructor
  · norm_num [maxDrawdownRun, maxDrawdownStep, maxDrawdownDefaultWindow,
      pushBounded, BufState.init, mddDrawdowns, runningMax, runningMaxAux, listMin]
  · norm_num [maxDrawdownDefaultWindow]

/-- C2 amended: for `RollingReturnStreaming` with window `w ≥ 1`,
`is_ready` is false after each of the first `w - 1` update calls and true from
the `w`-th call onward.  `MaxDrawdownStreaming`'s warm-up is 2 ticks, not its
window: for `w ≥ 2`, `is_ready` is true exactly from the 2nd call onward. -/
theorem warmup_boundary_rolling_return_and_max_drawdown
    (w : ℕ) (hw : 1 ≤ w) (closes : List ℚ) :
    ((rollingReturnRun w closes).isReady = true ↔ w ≤ closes.length) ∧
    (2 ≤ w →
      ((maxDrawdownRun w closes).isReady = true ↔ 2 ≤ closes.length)) := by
  constructor
  · rw [rollingReturnRun_isReady w hw]
    simp
  · intro h2
    rw [maxDrawdownRun_isReady]
    simp
    omega

/-- Witness for C2 (amended) at `w = 2`, `closes = [1, 2, 3]`. -/
theorem warmup_boundary_witness :
    (1 : ℕ) ≤ 2 ∧
    (((rollingReturnRun 2 [1, 2, 3]).isReady = true ↔ 2 ≤ ([(1 : ℚ), 2, 3]).length) ∧
      (2 ≤ 2 →
        ((maxDrawdownRun 2 [1, 2, 3]).isReady = true ↔ 2 ≤ ([(1 : ℚ), 2, 3]).length))) :=
  ⟨by decide, warmup_boundary_rolling_return_and_max_drawdown 2 (by decide) [1, 2, 3]⟩

/-- C4 counterexample: the claim fails on `CompoundLogReturnStreaming`:
fed `100` then the non-positive price `-1`, the second update call returns the
previous current value `0.0` — not the NaN / not-ready sentinel — and
`is_ready` stays true. -/
theorem log_return_nonpositive_counterexample :
    (clrStep (fun _ => 0) (fun _ => 0)
        (clrStep (fun _ => 0) (fun _ => 0) CLRState.init 100) (-1)).currentValue
      = some 0 ∧
    (clrStep (fun _ => 0) (fun _ => 0)
        (clrStep (fun _ => 0) (fun _ => 0) CLRState.init 100) (-1)).isReady
      = true := by
  norm_num [clrStep, CLRState.init]

/-- C4 amended: for `DailyLogReturnStreaming` and
`CompoundLogReturnStreaming`, an update call after the first whose input close
or stored previous close is non-positive performs no logarithm: it leaves the
current value, readiness flag and (for the compound indicator) the
`cumulative_log_return` accumulator untouched, only incrementing the update
counter and storing the new previous close — so the value it returns is the
previous current value (the NaN not-ready sentinel only when no earlier call
produced a value), and no exception is raised. -/
theorem log_return_nonpositive_skips_state
    (rlog rexp : ℚ → ℚ) (s : DRState) (t : CLRState) (close : ℚ)
    (hs : s.updateCount ≠ 0) (ht : t.updateCount ≠ 0)
    (h1 : close ≤ 0 ∨ prevInvalid s.prevClose)
    (h2 : close ≤ 0 ∨ prevInvalid t.prevClose) :
    dlrStep rlog s close =
      { s with updateCount := s.updateCount + 1, prevClose := some close } ∧
    clrStep rexp rlog t close =
      { t with updateCount := t.updateCount + 1, prevClose := some close } := by
  constructor
  · rcases s with ⟨n, cur, r, _ | p⟩ <;>
      [skip; simp only [prevInvalid] at h1] <;>
      · have hn : n ≠ 0 := hs
        simp only [dlrStep]
        rw [if_neg (by omega)]
        try rw [if_neg (by
          rintro ⟨hp, hc⟩
          rcases h1 with h | h
          · exact absurd hc (by linarith)
          · exact absurd hp (by linarith))]
  · rcases t with ⟨n, cur, r, acc, _ | p⟩ <;>
      [skip; simp only [prevInvalid] at h2] <;>
      · have hn : n ≠ 0 := ht
        simp only [clrStep]
        rw [if_neg (by omega)]
        try rw [if_neg (by
          rintro ⟨hp, hc⟩
          rcases h2 with h | h
          · exact absurd hc (by linarith)
          · exact absurd hp (by linarith))]

/-- Witness for C4 (amended) at a concrete post-first-update state fed `-1`. -/
theorem log_return_nonpositive_skips_state_witness :
    (1 : ℕ) ≠ 0 ∧ ((-1 : ℚ) ≤ 0 ∨ prevInvalid (some 100)) ∧
    (dlrStep (fun _ => 0) ⟨1, none, false, some 100⟩ (-1) =
        { (⟨1, none, false, some 100⟩ : DRState) with
            updateCount := 1 + 1, prevClose := some (-1) } ∧
      clrStep (fun _ => 0) (fun _ => 0) ⟨1, some 0, true, 0, some 100⟩ (-1) =
        { (⟨1, some 0, true, 0, some 100⟩ : CLRState) with
            updateCount := 1 + 1, prevClose := some (-1) }) :=
  ⟨by norm_num, by norm_num,
    log_return_nonpositive_skips_state (fun _ => 0) (fun _ => 0)
      ⟨1, none, false, some 100⟩ ⟨1, some 0, true, 0, some 100⟩ (-1)
      (by norm_num) (by norm_num) (by norm_num) (by norm_num)⟩

/-- C5: the two call sites constructing the streaming Sharpe Ratio declare
different default risk-free rates — 0.02 in streaming/others.py and 0.0 in
_rust_streaming.py — so on any ready state with positive volatility the two
all-default instances compute different outputs. -/
theorem sharpe_default_risk_free_rate_discrepancy
    (avgReturn vol : ℚ) (hvol : 0 < vol) :
    pySharpeDefaultRiskFreeRate ≠ rustSharpeDefaultRiskFreeRate ∧
    sharpeFromStats avgReturn vol pySharpeDefaultRiskFreeRate ≠
      sharpeFromStats avgReturn vol rustSharpeDefaultRiskFreeRate := by
  constructor
  · norm_num [pySharpeDefaultRiskFreeRate, rustSharpeDefaultRiskFreeRate]
  · unfold sharpeFromStats pySharpeDefaultRiskFreeRate rustSharpeDefaultRiskFreeRate
    rw [if_pos hvol, if_pos hvol]
    intro h
    rw [div_eq_div_iff (ne_of_gt hvol) (ne_of_gt hvol)] at h
    have h2 : avgReturn - 2 / 100 = avgReturn - 0 :=
      mul_right_cancel₀ (ne_of_gt hvol) h
    norm_num at h2

/-- Witness for C5 at `avgReturn = 0`, `vol = 1`. -/
theorem sharpe_default_risk_free_rate_discrepancy_witness :
    (0 : ℚ) < 1 ∧
    (pySharpeDefaultRiskFreeRate ≠ rustSharpeDefaultRiskFreeRate ∧
      sharpeFromStats 0 1 pySharpeDefaultRiskFreeRate ≠
        sharpeFromStats 0 1 rustSharpeDefaultRiskFreeRate) :=
  ⟨by norm_num, sharpe_default_risk_free_rate_discrepancy 0 1 (by norm_num)⟩

/-- C6: zero divisors hit the defined 0.0 sentinel, not a fault: a ready
Sharpe update with zero volatility returns 0.0; a ready Calmar update whose
computed max drawdown is zero returns 0.0; a ready rolling z-score update
whose computed standard deviation is zero returns 0.0. -/
theorem zero_divisor_sentinel
    (avgReturn rfr : ℚ) (sqrtQ : ℚ → ℚ) (w : ℕ) (s t : BufState) (close v : ℚ)
    (hcal : w ≤ (pushBounded w s.buffer close).length)
    (hmdd : calmarMaxDrawdown (pushBounded w s.buffer close) = 0)
    (hzs : w ≤ (pushBounded w t.buffer v).length)
    (hstd : sqrtQ (popVar (pushBounded w t.buffer v)) = 0) :
    sharpeFromStats avgReturn 0 rfr = 0 ∧
    (calmarStep w s close).currentValue = some 0 ∧
    (zscoreStep sqrtQ w t v).currentValue = some 0 := by
  refine ⟨by simp [sharpeFromStats], ?_, ?_⟩
  · unfold calmarStep
    rw [if_pos hcal]
    simp [hmdd]
  · unfold zscoreStep
    rw [if_pos hzs]
    simp [hstd]

/-- Witness for C6: Calmar window 2 on nondecreasing closes `[1, 2]`
(max drawdown 0), z-score window 2 on the constant window `[5, 5]`
(variance 0, with the zero function a valid square root at 0). -/
theorem zero_divisor_sentinel_witness :
    (2 ≤ (pushBounded 2 [(1 : ℚ)] 2).length ∧
      calmarMaxDrawdown (pushBounded 2 [(1 : ℚ)] 2) = 0 ∧
      2 ≤ (pushBounded 2 [(5 : ℚ)] 5).length ∧
      (fun _ : ℚ => (0 : ℚ)) (popVar (pushBounded 2 [(5 : ℚ)] 5)) = 0) ∧
    (sharpeFromStats 5 0 1 = 0 ∧
      (calmarStep 2 ⟨1, none, false, [1]⟩ 2).currentValue = some 0 ∧
      (zscoreStep (fun _ => 0) 2 ⟨1, none, false, [5]⟩ 5).currentValue = some 0) :=
  ⟨⟨by norm_num [pushBounded],
    by norm_num [calmarMaxDrawdown, pushBounded, mddDrawdowns, runningMax,
      runningMaxAux, listMin],
    by norm_num [pushBounded], rfl⟩,
    zero_divisor_sentinel 5 1 (fun _ => 0) 2 ⟨1, none, false, [1]⟩
      ⟨1, none, false, [5]⟩ 2 5
      (by norm_num [pushBounded])
      (by norm_num [calmarMaxDrawdown, pushBounded, mddDrawdowns, runningMax,
        runningMaxAux, listMin])
      (by norm_num [pushBounded]) rfl⟩

lemma drApply_countAux (ops : List StreamOp) (s : DRState) :
    (ops.foldl drApply s).updateCount =
      ops.foldl (fun acc op => match op with
        | .update _ => acc + 1
        | .reset => 0) s.updateCount := by
  induction ops generalizing s with
  | nil => rfl
  | cons op ops ih =>
    cases op with
    | update x =>
      simp only [List.foldl_cons, drApply]
      rw [ih, drStep_updateCount]
    | reset =>
      simp only [List.foldl_cons, drApply]
      rw [ih]
      rfl

lemma smaWApply_countAux (w : ℕ) (ops : List StreamOp) (s : SMAWState) :
    (ops.foldl (smaWApply w) s).updateCount =
      ops.foldl (fun acc op => match op with
        | .update _ => acc + 1
        | .reset => 0) s.updateCount := by
  induction ops generalizing s with
  | nil => rfl
  | cons op ops ih =>
    cases op with
    | update x =>
      simp only [List.foldl_cons, smaWApply]
      rw [ih]
      rfl
    | reset =>
      simp only [List.foldl_cons, smaWApply]
      rw [ih]
      rfl

/-- C8: for the `DailyReturnStreaming` machine and the Rust-backed
`SMAStreaming` wrapper, over every sequence of `update`/`reset` operations the
update counter equals the number of `update` calls since the last `reset`:
each `update` adds exactly 1, `reset` sets it to 0, and nothing else touches
it. -/
theorem update_count_invariant (w : ℕ) (ops : List StreamOp) :
    (drRunOps ops).updateCount = countSinceReset ops ∧
    (smaWRunOps w ops).updateCount = countSinceReset ops := by
  constructor
  · rw [drRunOps, drApply_countAux, countSinceReset]
    rfl
  · rw [smaWRunOps, smaWApply_countAux w, countSinceReset]
    rfl

/-- C9: `SMAStreaming(window=3)` fed `1.0, 2.0, 3.0` in order: not ready
after the first and second update calls; the third update call returns the
value `2.0` under the output key `"sma"` with `is_ready` true. -/
theorem sma_concrete_scenario :
    (smaWStep 3 SMAWState.init 1).isReady = false ∧
    (smaWStep 3 (smaWStep 3 SMAWState.init 1) 2).isReady = false ∧
    (smaWStep 3 (smaWStep 3 (smaWStep 3 SMAWState.init 1) 2) 3).currentValue
      = some 2 ∧
    (smaWStep 3 (smaWStep 3 (smaWStep 3 SMAWState.init 1) 2) 3).isReady = true ∧
    smaKey = "sma" := by
  refine ⟨?_, ?_, ?_, ?_, rfl⟩ <;>
    norm_num [smaWStep, smaInnerUpdate, pushBounded, SMAWState.init]

lemma pushBounded_mem_self (w : ℕ) (hw : 1 ≤ w) (buf : List ℚ) (x : ℚ) :
    x ∈ pushBounded w buf x := by
  unfold pushBounded
  rw [if_neg (by omega)]
  split <;> simp

lemma rollingPercentileStep_buffer (w : ℕ) (s : BufState) (c : ℚ) :
    (rollingPercentileStep w s c).buffer = pushBounded w s.buffer c := by
  unfold rollingPercentileStep
  split <;> rfl

lemma rollingPercentileStep_isReady (w : ℕ) (s : BufState) (c : ℚ) :
    (rollingPercentileStep w s c).isReady =
      if w ≤ (pushBounded w s.buffer c).length then true else s.isReady := by
  unfold rollingPercentileStep
  split <;> rename_i h <;> simp [h]

lemma rollingPercentileRun_append (w : ℕ) (xs : List ℚ) (x : ℚ) :
    rollingPercentileRun w (xs ++ [x]) =
      rollingPercentileStep w (rollingPercentileRun w xs) x := by
  unfold rollingPercentileRun
  rw [List.foldl_append]
  rfl

lemma rollingPercentileRun_buffer_length (w : ℕ) (xs : List ℚ) :
    (rollingPercentileRun w xs).buffer.length = min xs.length w := by
  induction xs using List.reverseRecOn with
  | nil => simp [rollingPercentileRun, BufState.init]
  | append_singleton ys x ih =>
    rw [rollingPercentileRun_append, rollingPercentileStep_buffer,
      pushBounded_length, ih]
    simp
    omega

lemma rollingPercentileRun_isReady (w : ℕ) (hw : 1 ≤ w) (xs : List ℚ) :
    (rollingPercentileRun w xs).isReady = decide (w ≤ xs.length) := by
  induction xs using List.reverseRecOn with
  | nil =>
    simp [rollingPercentileRun, BufState.init]
    omega
  | append_singleton ys x ih =>
    rw [rollingPercentileRun_append, rollingPercentileStep_isReady,
      pushBounded_length, rollingPercentileRun_buffer_length, ih]
    simp only [List.length_append, List.length_cons, List.length_nil]
    split
    · rename_i h
      have : w ≤ ys.length + 1 := by omega
      simp [this]
    · rename_i h
      have h1 : ¬ w ≤ ys.length := by omega
      have h2 : ¬ w ≤ ys.length + 1 := by omega
      simp [h1, h2]

/-- C10: once `RollingPercentileStreaming` with window `w` is ready, every
value it returns lies in `[1/w, 1]`: the just-pushed value counts itself, so
the count is at least 1, and at most the `w` buffered values are counted; the
same bounds hold for every defined cell of the bulk
`rolling_percentile_numba`. -/
theorem rolling_percentile_bounds
    (w : ℕ) (hw : 1 ≤ w) (xs : List ℚ)
    (hready : (rollingPercentileRun w xs).isReady = true)
    (data : List ℚ) (i : ℕ) (hi1 : w - 1 ≤ i) (hi2 : i < data.length) :
    (∃ q, (rollingPercentileRun w xs).currentValue = some q ∧
      1 / (w : ℚ) ≤ q ∧ q ≤ 1) ∧
    (∃ q, rollingPercentileAt data w i = some q ∧ 1 / (w : ℚ) ≤ q ∧ q ≤ 1) := by
  have hwq : (0 : ℚ) < (w : ℚ) := by exact_mod_cast hw
  constructor
  · rw [rollingPercentileRun_isReady w hw] at hready
    have hxs : w ≤ xs.length := of_decide_eq_true hready
    rcases List.eq_nil_or_concat xs with rfl | ⟨ys, x, rfl⟩
    · simp at hxs; omega
    · simp only [List.concat_eq_append] at hxs ⊢
      rw [rollingPercentileRun_append]
      have hyslen : w ≤ ys.length + 1 := by
        simp at hxs; omega
      have hbuflen :
          (pushBounded w (rollingPercentileRun w ys).buffer x).length = w := by
        rw [pushBounded_length, rollingPercentileRun_buffer_length]
        omega
      unfold rollingPercentileStep
      rw [if_pos (by rw [hbuflen])]
      refine ⟨_, rfl, ?_, ?_⟩
      · rw [div_le_div_iff_of_pos_right hwq]
        have : 0 < (pushBounded w (rollingPercentileRun w ys).buffer x).countP
            (fun y => decide (y ≤ x)) :=
          List.countP_pos_iff.mpr
            ⟨x, pushBounded_mem_self w hw _ x, by simp⟩
        exact_mod_cast this
      · rw [div_le_one hwq]
        have := List.countP_le_length
          (l := pushBounded w (rollingPercentileRun w ys).buffer x)
          (fun y => decide (y ≤ x))
        rw [hbuflen] at this
        exact_mod_cast this
  · unfold rollingPercentileAt
    rw [if_pos ⟨hi1, hi2⟩]
    refine ⟨_, rfl, ?_, ?_⟩
    · rw [div_le_div_iff_of_pos_right hwq]
      have hidx : i + 1 - w + (w - 1) = i := by omega
      have : 0 < (List.range w).countP
          (fun j => decide (data.getD (i + 1 - w + j) 0 ≤ data.getD i 0)) :=
        List.countP_pos_iff.mpr
          ⟨w - 1, List.mem_range.mpr (by omega), by rw [hidx]; simp⟩
      exact_mod_cast this
    · rw [div_le_one hwq]
      have := List.countP_le_length (l := List.range w)
        (fun j => decide (data.getD (i + 1 - w + j) 0 ≤ data.getD i 0))
      rw [List.length_range] at this
      exact_mod_cast this

/-- Witness for C10 at `w = 1`, `xs = [5]`, `data = [5]`, `i = 0`. -/
theorem rolling_percentile_bounds_witness :
    ((1 : ℕ) ≤ 1 ∧ (rollingPercentileRun 1 [5]).isReady = true ∧
      (1 : ℕ) - 1 ≤ 0 ∧ 0 < [(5 : ℚ)].length) ∧
    ((∃ q, (rollingPercentileRun 1 [5]).currentValue = some q ∧
        1 / ((1 : ℕ) : ℚ) ≤ q ∧ q ≤ 1) ∧
      (∃ q, rollingPercentileAt [5] 1 0 = some q ∧
        1 / ((1 : ℕ) : ℚ) ≤ q ∧ q ≤ 1)) :=
  ⟨⟨le_refl 1,
    by norm_num [rollingPercentileRun, rollingPercentileStep, pushBounded,
      BufState.init],
    by norm_num, by norm_num⟩,
    rolling_percentile_bounds 1 (le_refl 1) [5]
      (by norm_num [rollingPercentileRun, rollingPercentileStep, pushBounded,
        BufState.init])
      [5] 0 (by norm_num) (by norm_num)⟩

/-! #### Support lemmas for the channel ordering -/

lemma getD_of_ge (l : List ℚ) (i : ℕ) (h : l.length ≤ i) (d : ℚ) :
    l.getD i d = d := by
  induction l generalizing i with
  | nil => simp
  | cons x xs ih =>
    cases i with
    | zero => simp at h
    | succ i => simpa using ih i (by simpa using h)

lemma le_foldl_max (xs : List ℚ) (b : ℚ) : b ≤ xs.foldl max b := by
  induction xs generalizing b with
  | nil => exact le_refl b
  | cons x xs ih => exact le_trans (le_max_left b x) (ih (max b x))

lemma mem_le_foldl_max (xs : List ℚ) (b a : ℚ) (h : a ∈ xs) :
    a ≤ xs.foldl max b := by
  induction xs generalizing b with
  | nil => simp at h
  | cons x xs ih =>
    rcases List.mem_cons.mp h with rfl | h'
    · exact le_trans (le_max_right b a) (le_foldl_max xs (max b a))
    · exact ih (max b x) h'

lemma le_listMax (l : List ℚ) (a : ℚ) (h : a ∈ l) : a ≤ listMax l := by
  cases l with
  | nil => simp at h
  | cons x xs =>
    rcases List.mem_cons.mp h with rfl | h'
    · exact le_foldl_max xs a
    · exact mem_le_foldl_max xs x a h'

lemma foldl_min_le (xs : List ℚ) (b : ℚ) : xs.foldl min b ≤ b := by
  induction xs generalizing b with
  | nil => exact le_refl b
  | cons x xs ih => exact le_trans (ih (min b x)) (min_le_left b x)

lemma foldl_min_le_mem (xs : List ℚ) (b a : ℚ) (h : a ∈ xs) :
    xs.foldl min b ≤ a := by
  induction xs generalizing b with
  | nil => simp at h
  | cons x xs ih =>
    rcases List.mem_cons.mp h with rfl | h'
    · exact le_trans (foldl_min_le xs (min b a)) (min_le_right b a)
    · exact ih (min b x) h'

lemma listMin_le (l : List ℚ) (a : ℚ) (h : a ∈ l) : listMin l ≤ a := by
  cases l with
  | nil => simp at h
  | cons x xs =>
    rcases List.mem_cons.mp h with rfl | h'
    · exact foldl_min_le xs a
    · exact foldl_min_le_mem xs x a h'

lemma sum_range_map_le (f g : ℕ → ℚ) (m : ℕ) (h : ∀ j, f j ≤ g j) :
    ((List.range m).map f).sum ≤ ((List.range m).map g).sum := by
  induction m with
  | zero => simp
  | succ m ih =>
    rw [List.range_succ, List.map_append, List.map_append,
      List.sum_append, List.sum_append]
    simp only [List.map_cons, List.map_nil, List.sum_cons, List.sum_nil]
    have := h m
    linarith

lemma sum_range_map_nonneg (x : ℕ → ℚ) (m : ℕ) (h : ∀ j, 0 ≤ x j) :
    0 ≤ ((List.range m).map x).sum := by
  induction m with
  | zero => simp
  | succ m ih =>
    rw [List.range_succ, List.map_append, List.sum_append]
    simp only [List.map_cons, List.map_nil, List.sum_cons, List.sum_nil]
    have := h m
    linarith

lemma getD_pointwise (high low : List ℚ) (hlh : low.length = high.length)
    (hpt : ∀ j, j < high.length → low.getD j 0 ≤ high.getD j 0) (j : ℕ) :
    low.getD j 0 ≤ high.getD j 0 := by
  by_cases hj : j < high.length
  · exact hpt j hj
  · rw [getD_of_ge high j (by omega), getD_of_ge low j (by omega)]

lemma trF_nonneg (high low close : List ℚ) (hlh : low.length = high.length)
    (hpt : ∀ j, j < high.length → low.getD j 0 ≤ high.getD j 0) :
    ∀ i, 0 ≤ trF high low close i := by
  intro i
  cases i with
  | zero =>
    have := getD_pointwise high low hlh hpt 0
    simp only [trF]
    linarith
  | succ i =>
    have := getD_pointwise high low hlh hpt (i + 1)
    simp only [trF]
    exact le_trans (by linarith) (le_max_left _ _)

lemma wilderVal_nonneg (x : ℕ → ℚ) (n : ℕ) (hn : 1 ≤ n) (hx : ∀ i, 0 ≤ x i) :
    ∀ j, 0 ≤ wilderVal x n j := by
  intro j
  induction j with
  | zero =>
    simp only [wilderVal]
    exact div_nonneg (sum_range_map_nonneg x n hx) (by positivity)
  | succ j ih =>
    simp only [wilderVal]
    have hnq : (1 : ℚ) ≤ (n : ℚ) := by exact_mod_cast hn
    have hxj := hx (n - 1 + (j + 1))
    have heq : wilderVal x n j + (x (n - 1 + (j + 1)) - wilderVal x n j) / (n : ℚ)
        = (wilderVal x n j * ((n : ℚ) - 1) + x (n - 1 + (j + 1))) / (n : ℚ) := by
      field_simp
      ring
    rw [heq]
    apply div_nonneg _ (by linarith)
    have := mul_nonneg ih (by linarith : (0 : ℚ) ≤ (n : ℚ) - 1)
    linarith

lemma tp_pointwise (high low close : List ℚ) (hlh : low.length = high.length)
    (hpt : ∀ j, j < high.length → low.getD j 0 ≤ high.getD j 0) (j : ℕ) :
    lowTpF high low close j ≤ tpF high low close j ∧
    tpF high low close j ≤ highTpF high low close j := by
  have key := getD_pointwise high low hlh hpt j
  unfold lowTpF tpF highTpF
  constructor <;> linarith

/-- C7: wherever all three outputs are defined, and given a nonnegative
multiplier and per-tick `high ≥ low`, the Bollinger Bands, Donchian Channel
and Keltner Channel (both the modern EMA+ATR branch and the original SMA
branch) satisfy `upper ≥ middle ≥ lower`. -/
theorem channel_ordering
    (sqrtQ : ℚ → ℚ) (hsq : ∀ q, 0 ≤ sqrtQ q)
    (high low close : List ℚ)
    (hlh : low.length = high.length)
    (hpt : ∀ j, j < high.length → low.getD j 0 ≤ high.getD j 0)
    (n nEma nAtr : ℕ) (hn : 1 ≤ n) (hnA : 1 ≤ nAtr)
    (k : ℚ) (hk : 0 ≤ k) (orig : Bool) (i : ℕ)
    (u1 m1 l1 u2 m2 l2 u3 m3 l3 : ℚ)
    (hbu : bollingerUpper sqrtQ close n k i = some u1)
    (hbm : bollingerMiddle close n i = some m1)
    (hbl : bollingerLower sqrtQ close n k i = some l1)
    (hdu : donchianUpper high n i = some u2)
    (hdm : donchianMiddle high low n i = some m2)
    (hdl : donchianLower high low n i = some l2)
    (hku : keltnerUpper high low close nEma nAtr k orig i = some u3)
    (hkm : keltnerMiddle high low close nEma orig i = some m3)
    (hkl : keltnerLower high low close nEma nAtr k orig i = some l3) :
    (l1 ≤ m1 ∧ m1 ≤ u1) ∧ (l2 ≤ m2 ∧ m2 ≤ u2) ∧ (l3 ≤ m3 ∧ m3 ≤ u3) := by
  refine ⟨?_, ?_, ?_⟩
  · -- Bollinger
    unfold bollingerUpper at hbu
    unfold bollingerMiddle at hbm
    unfold bollingerLower at hbl
    by_cases hc : n - 1 ≤ i ∧ i < close.length
    · rw [if_pos hc] at hbu hbm hbl
      obtain rfl := Option.some.inj hbu
      obtain rfl := Option.some.inj hbm
      obtain rfl := Option.some.inj hbl
      have h0 : 0 ≤ k * sqrtQ (bbVar close n i) := mul_nonneg hk (hsq _)
      constructor <;> linarith
    · rw [if_neg hc] at hbu
      exact absurd hbu (by simp)
  · -- Donchian
    unfold donchianUpper at hdu
    unfold donchianMiddle at hdm
    unfold donchianLower at hdl
    by_cases hc : n - 1 ≤ i ∧ i < high.length
    · rw [if_pos hc] at hdu hdm hdl
      obtain rfl := Option.some.inj hdu
      obtain rfl := Option.some.inj hdm
      obtain rfl := Option.some.inj hdl
      have hidx : i + 1 - n + (n - 1) = i := by omega
      have hmemh : high.getD i 0 ∈ (List.range n).map (winGetD high n i) :=
        List.mem_map.mpr ⟨n - 1, List.mem_range.mpr (by omega),
          by simp only [winGetD]; rw [hidx]⟩
      have hmeml : low.getD i 0 ∈ (List.range n).map (winGetD low n i) :=
        List.mem_map.mpr ⟨n - 1, List.mem_range.mpr (by omega),
          by simp only [winGetD]; rw [hidx]⟩
      have hmax := le_listMax _ _ hmemh
      have hmin := listMin_le _ _ hmeml
      have hpti := hpt i hc.2
      constructor <;> linarith
    · rw [if_neg hc] at hdu
      exact absurd hdu (by simp)
  · -- Keltner
    cases orig with
    | false =>
      simp only [keltnerUpper, keltnerMiddle, keltnerLower,
        Bool.false_eq_true, if_false] at hku hkm hkl
      rcases hema : emaUnadjAt close nEma i with _ | m0
      · rw [hema] at hku
        exact absurd hku (by simp)
      · rcases hatr : atrAt high low close nAtr i with _ | a
        · rw [hema, hatr] at hku
          exact absurd hku (by simp)
        · rw [hema, hatr] at hku hkl
          rw [hema] at hkm
          obtain rfl := Option.some.inj hku
          obtain rfl := Option.some.inj hkm
          obtain rfl := Option.some.inj hkl
          have ha : 0 ≤ a := by
            unfold atrAt at hatr
            by_cases hc : nAtr - 1 ≤ i ∧ i < high.length
            · rw [if_pos hc] at hatr
              obtain rfl := Option.some.inj hatr
              exact wilderVal_nonneg _ nAtr hnA
                (trF_nonneg high low close hlh hpt) _
            · rw [if_neg hc] at hatr
              exact absurd hatr (by simp)
          have hka : 0 ≤ k * a := mul_nonneg hk ha
          constructor <;> linarith
    | true =>
      simp only [keltnerUpper, keltnerMiddle, keltnerLower, if_true] at hku hkm hkl
      unfold smaMpAt at hku hkm hkl
      by_cases hc : i < close.length ∧ max nEma 1 ≤ min nEma (i + 1)
      · rw [if_pos hc] at hkm
        rw [if_pos ⟨hc.1, by omega⟩] at hku hkl
        obtain rfl := Option.some.inj hku
        obtain rfl := Option.some.inj hkm
        obtain rfl := Option.some.inj hkl
        have hm1 : 1 ≤ min nEma (i + 1) := by omega
        have hmq : (0 : ℚ) < ((min nEma (i + 1) : ℕ) : ℚ) := by
          exact_mod_cast hm1
        constructor
        · rw [div_le_div_iff_of_pos_right hmq]
          exact sum_range_map_le _ _ _
            (fun j => (tp_pointwise high low close hlh hpt _).1)
        · rw [div_le_div_iff_of_pos_right hmq]
          exact sum_range_map_le _ _ _
            (fun j => (tp_pointwise high low close hlh hpt _).2)
      · rw [if_neg hc] at hkm
        exact absurd hkm (by simp)

/-- Witness for C7: one-bar series `high = [2]`, `low = [1]`, `close = [2]`,
all windows 1, `k = 2`, the zero function as a (nonnegative) square root,
modern Keltner branch, index 0. -/
theorem channel_ordering_witness :
    (bollingerUpper (fun _ => 0) [2] 1 2 0 = some 2 ∧
      bollingerMiddle [2] 1 0 = some 2 ∧
      bollingerLower (fun _ => 0) [2] 1 2 0 = some 2 ∧
      donchianUpper [2] 1 0 = some 2 ∧
      donchianMiddle [2] [1] 1 0 = some (3 / 2) ∧
      donchianLower [2] [1] 1 0 = some 1 ∧
      keltnerUpper [2] [1] [2] 1 1 2 false 0 = some 4 ∧
      keltnerMiddle [2] [1] [2] 1 false 0 = some 2 ∧
      keltnerLower [2] [1] [2] 1 1 2 false 0 = some 0) ∧
    (((2 : ℚ) ≤ 2 ∧ (2 : ℚ) ≤ 2) ∧ ((1 : ℚ) ≤ 3 / 2 ∧ (3 / 2 : ℚ) ≤ 2) ∧
      ((0 : ℚ) ≤ 2 ∧ (2 : ℚ) ≤ 4)) := by
  constructor
  · refine ⟨?_, ?_, ?_, ?_, ?_, ?_, ?_, ?_, ?_⟩ <;>
      norm_num [bollingerUpper, bollingerMiddle, bollingerLower, donchianUpper,
        donchianMiddle, donchianLower, keltnerUpper, keltnerMiddle, keltnerLower,
        bbSma, bbVar, winGetD, listMax, listMin, emaUnadjAt, emaVal, emaAlpha,
        atrAt, wilderVal, trF, List.range_succ]
  · exact channel_ordering (fun _ => 0) (fun _ => le_refl 0) [2] [1] [2] rfl
      (by
        intro j hj
        simp only [List.length_singleton] at hj
        have hj0 : j = 0 := by omega
        subst hj0
        norm_num)
      1 1 1 (le_refl 1) (le_refl 1) 2 (by norm_num) false 0
      2 2 2 2 (3 / 2) 1 4 2 0
      (by norm_num [bollingerUpper, bbSma, bbVar, winGetD, List.range_succ])
      (by norm_num [bollingerMiddle, bbSma, winGetD, List.range_succ])
      (by norm_num [bollingerLower, bbSma, bbVar, winGetD, List.range_succ])
      (by norm_num [donchianUpper, winGetD, listMax, List.range_succ])
      (by norm_num [donchianMiddle, winGetD, listMax, listMin, List.range_succ])
      (by norm_num [donchianLower, winGetD, listMin, List.range_succ])
      (by norm_num [keltnerUpper, emaUnadjAt, emaVal, emaAlpha, atrAt, wilderVal,
        trF, List.range_succ])
      (by norm_num [keltnerMiddle, emaUnadjAt, emaVal, emaAlpha])
      (by norm_num [keltnerLower, emaUnadjAt, emaVal, emaAlpha, atrAt, wilderVal,
        trF, List.range_succ])
